import Mathlib

/-!
Verification development for the flare_pp sparse Gaussian-process engine and
its LAMMPS-side inference collaborators.

The repository provides `sparse_gp_dtc.h` and `kernels.h` as declarations
only; the corresponding implementation files are absent, so the sparse-GP
operations and the kernel family are modelled from the specification
(section references are to spec.md) and marked `Modelled from the spec:` in
their doc comments.  The LAMMPS files `compute_flare_std_atom.cpp` and the
appended `pair_flare.cpp` are present in full and are embedded directly.

Real arithmetic is embedded over `ℚ` (the C++ code computes in double
precision; all claims under study are exact-arithmetic properties, so the
rational embedding is faithful up to rounding, which none of the settled
claims depends on).
-/

namespace Flare

/-- Modelled from the spec: `LocalEnvironment` (spec §3) — the cached invariant
descriptor vector with its cached norm (`kernels.h` dot-product kernel works on
normalized descriptors), plus the two-body bond list (neighbor species and
distance) and the three-body triplet feature list used by the two- and
three-body kernels.  Jacobians are omitted: no settled claim mentions
derivatives. -/
structure LocalEnvironment where
  desc : List ℚ
  descNorm : ℚ
  bonds : List (ℕ × ℚ)
  triplets : List (ℕ × ℕ × ℚ × ℚ × ℚ)

/-- Modelled from the spec: `StructureDescriptor` (spec §3) — an ordered
sequence of local environments with a scalar energy label.  Force and stress
labels are omitted: every claim under study uses energy labels only. -/
structure StructureDescriptor where
  envs : List LocalEnvironment
  energy : ℚ

/-- Modelled from the spec: the polymorphic kernel interface of `kernels.h`
(`env_env` and the energy row of `env_struc`). -/
structure Kernel where
  env_env : LocalEnvironment → LocalEnvironment → ℚ
  env_struc_energy : LocalEnvironment → StructureDescriptor → ℚ

/-- Dot product of two descriptor vectors. -/
def dotProd (a b : List ℚ) : ℚ :=
  (List.zipWith (fun x y => x * y) a b).sum

/-- Modelled from the spec: `DotProductKernel::env_env` (spec §4.2) — the
signal variance times a power of the normalized descriptor inner product;
the norms are the cached `descNorm` fields. -/
def dotEnvEnv (sig2 : ℚ) (power : ℕ) (e1 e2 : LocalEnvironment) : ℚ :=
  sig2 * (dotProd e1.desc e2.desc / (e1.descNorm * e2.descNorm)) ^ power

/-- Modelled from the spec: the dot-product kernel; its energy/structure
covariance is the sum of `env_env` over the structure's environments
(spec §4.2: one scalar per label, energy label only here). -/
def DotProductKernel (sig2 : ℚ) (power : ℕ) : Kernel where
  env_env := dotEnvEnv sig2 power
  env_struc_energy := fun e s => (s.envs.map (fun e2 => dotEnvEnv sig2 power e e2)).sum

/-- Modelled from the spec: `TwoBodyKernel` (kernels.h fields `ls1`,
`cutoff_pointer`; spec §4.2) — the squared-exponential of the bond-distance
difference is abstracted as the field `radial`, applied to
`ls1 * (r1 - r2)^2`; since the spec fixes only that the radial factor is a
function of the squared distance difference scaled by the length-scale
hyperparameter, the symmetry claim is settled for every instantiation of
`radial` (in particular the Gaussian). -/
structure TwoBodyKernel where
  ls1 : ℚ
  radial : ℚ → ℚ
  cutoff_pointer : ℚ → ℚ

/-- Modelled from the spec: `TwoBodyKernel::env_env` — a double sum over the
two environments' bonds, restricted to matching species, of the radial
similarity of the two distances times the cutoff envelope values. -/
def TwoBodyKernel.env_env (k : TwoBodyKernel) (e1 e2 : LocalEnvironment) : ℚ :=
  (e1.bonds.map (fun b1 =>
    (e2.bonds.map (fun b2 =>
      if b1.1 = b2.1 then
        k.radial (k.ls1 * (b1.2 - b2.2) ^ 2) * k.cutoff_pointer b1.2 * k.cutoff_pointer b2.2
      else 0)).sum)).sum

/-- Modelled from the spec: `ThreeBodyKernel` (kernels.h fields `ls1`,
`cutoff_pointer`; spec §4.2), with the same abstraction of the
squared-exponential as `TwoBodyKernel`. -/
structure ThreeBodyKernel where
  ls1 : ℚ
  radial : ℚ → ℚ
  cutoff_pointer : ℚ → ℚ

/-- Modelled from the spec: `ThreeBodyKernel::env_env` — a double sum over
the two environments' triplet features `(s1, s2, r1, r2, r3)` (center/first
neighbor species pair and the three triplet distances), restricted to
matching species pairs, of the radial similarity of the distance vectors
times the cutoff envelope values of the two center-neighbor distances on
each side. -/
def ThreeBodyKernel.env_env (k : ThreeBodyKernel) (e1 e2 : LocalEnvironment) : ℚ :=
  (e1.triplets.map (fun t1 =>
    (e2.triplets.map (fun t2 =>
      if t1.1 = t2.1 ∧ t1.2.1 = t2.2.1 then
        k.radial (k.ls1 * ((t1.2.2.1 - t2.2.2.1) ^ 2 + (t1.2.2.2.1 - t2.2.2.2.1) ^ 2 +
            (t1.2.2.2.2 - t2.2.2.2.2) ^ 2)) *
          k.cutoff_pointer t1.2.2.1 * k.cutoff_pointer t1.2.2.2.1 *
          k.cutoff_pointer t2.2.2.1 * k.cutoff_pointer t2.2.2.2.1
      else 0)).sum)).sum

theorem sum_map_add {β : Type} (B : List β) (f h : β → ℚ) :
    (B.map (fun b => f b + h b)).sum = (B.map f).sum + (B.map h).sum := by
  induction B with
  | nil => simp
  | cons b B ih => simp only [List.map_cons, List.sum_cons, ih]; ring

theorem sum_map_sum_comm {α β : Type} (A : List α) (B : List β) (g : α → β → ℚ) :
    (A.map (fun a => (B.map (fun b => g a b)).sum)).sum
      = (B.map (fun b => (A.map (fun a => g a b)).sum)).sum := by
  induction A with
  | nil => simp
  | cons a A ih =>
      simp only [List.map_cons, List.sum_cons, ih, sum_map_add]

theorem dotProd_comm (a b : List ℚ) : dotProd a b = dotProd b a := by
  unfold dotProd
  congr 1
  induction a generalizing b with
  | nil => cases b <;> simp
  | cons x a ih =>
      cases b with
      | nil => simp
      | cons y b => simp [List.zipWith, ih, mul_comm]

theorem dotEnvEnv_comm (sig2 : ℚ) (power : ℕ) (a b : LocalEnvironment) :
    dotEnvEnv sig2 power a b = dotEnvEnv sig2 power b a := by
  unfold dotEnvEnv
  rw [dotProd_comm, mul_comm a.descNorm b.descNorm]

theorem twoBody_env_env_comm (k : TwoBodyKernel) (a b : LocalEnvironment) :
    k.env_env a b = k.env_env b a := by
  unfold TwoBodyKernel.env_env
  rw [sum_map_sum_comm]
  apply congrArg
  apply List.map_congr_left
  intro b2 _
  apply congrArg
  apply List.map_congr_left
  intro b1 _
  by_cases h : b1.1 = b2.1
  · rw [if_pos h, if_pos h.symm]
    ring_nf
  · rw [if_neg h, if_neg (fun hh => h hh.symm)]

theorem threeBody_env_env_comm (k : ThreeBodyKernel) (a b : LocalEnvironment) :
    k.env_env a b = k.env_env b a := by
  unfold ThreeBodyKernel.env_env
  rw [sum_map_sum_comm]
  apply congrArg
  apply List.map_congr_left
  intro t2 _
  apply congrArg
  apply List.map_congr_left
  intro t1 _
  by_cases h : t1.1 = t2.1 ∧ t1.2.1 = t2.2.1
  · rw [if_pos h, if_pos ⟨h.1.symm, h.2.symm⟩]
    ring_nf
  · rw [if_neg h, if_neg (fun hh => h ⟨hh.1.symm, hh.2.symm⟩)]

/-- C3: for every pair of environments and every kernel variant
(dot-product, two-body, three-body), `env_env` is symmetric:
`k(a, b) = k(b, a)` (exactly, hence within any floating-point tolerance). -/
theorem env_env_symmetric :
    (∀ (sig2 : ℚ) (power : ℕ) (a b : LocalEnvironment),
      (DotProductKernel sig2 power).env_env a b = (DotProductKernel sig2 power).env_env b a) ∧
    (∀ (k : TwoBodyKernel) (a b : LocalEnvironment), k.env_env a b = k.env_env b a) ∧
    (∀ (k : ThreeBodyKernel) (a b : LocalEnvironment), k.env_env a b = k.env_env b a) :=
  ⟨fun sig2 power a b => dotEnvEnv_comm sig2 power a b,
   fun k a b => twoBody_env_env_comm k a b,
   fun k a b => threeBody_env_env_comm k a b⟩

/-- The empty local environment (used as out-of-range default). -/
def emptyEnv : LocalEnvironment :=
  { desc := [], descNorm := 0, bonds := [], triplets := [] }

/-- The empty structure descriptor (used as out-of-range default). -/
def emptyStruc : StructureDescriptor :=
  { envs := [], energy := 0 }

/-- Modelled from the spec: the `SparseGP_DTC` state of `sparse_gp_dtc.h`
(spec §3, §4.3–§4.5).  Matrices are total functions `ℕ → ℕ → ℚ` together
with explicit logical sizes (`nSparse` inducing points, `nLabels` collected
labels); entries outside the logical sizes are junk.  In this energy-label
model each training structure contributes exactly one label, so label index
`f` also indexes `training_structures`.  `Kuu_kernels`/`Kuf_kernels` hold
one block per kernel (first index), as in the header; `hyps 0` is the
dot-product kernel's signal-variance hyperparameter.  `y` is the label
vector, `noise_vector` the per-label inverse-variance weights, and
`Sigma`/`Kuu_inverse`/`alpha` the posterior state produced by
`update_matrices`. -/
structure SparseGP_DTC where
  nKernels : ℕ
  kernels : ℕ → Kernel
  hyps : ℕ → ℚ
  sigma_e : ℚ
  nSparse : ℕ
  sparse_environments : ℕ → LocalEnvironment
  nLabels : ℕ
  training_structures : ℕ → StructureDescriptor
  Kuu_kernels : ℕ → ℕ → ℕ → ℚ
  Kuf_kernels : ℕ → ℕ → ℕ → ℚ
  noise_vector : ℕ → ℚ
  y : ℕ → ℚ
  Sigma : ℕ → ℕ → ℚ
  Kuu_inverse : ℕ → ℕ → ℚ
  alpha : ℕ → ℚ

/-- Modelled from the spec: `SparseGP_DTC::add_sparse_environments`
(spec §4.3) — appends the given environments to the inducing set and extends
every kernel's `Kuu` block by the corresponding rows/columns (cross- and
self-covariances evaluated with that kernel) and every kernel's `Kuf` block
by the corresponding rows (covariance of the new inducing points with the
already-collected labels).  Entries inside the previous logical sizes are
not written. -/
def add_sparse_environments (s : SparseGP_DTC) (envs : List LocalEnvironment) :
    SparseGP_DTC :=
  let U := s.nSparse
  let U' := U + envs.length
  let sparse' : ℕ → LocalEnvironment := fun u =>
    if u < U then s.sparse_environments u else envs.getD (u - U) emptyEnv
  { s with
    nSparse := U'
    sparse_environments := sparse'
    Kuu_kernels := fun k i j =>
      if i < U ∧ j < U then s.Kuu_kernels k i j
      else if i < U' ∧ j < U' then (s.kernels k).env_env (sparse' i) (sparse' j)
      else s.Kuu_kernels k i j
    Kuf_kernels := fun k u f =>
      if u < U then s.Kuf_kernels k u f
      else if u < U' ∧ f < s.nLabels then
        (s.kernels k).env_struc_energy (sparse' u) (s.training_structures f)
      else s.Kuf_kernels k u f }

/-- Modelled from the spec: `SparseGP_DTC::add_training_structure`
(spec §4.3) — appends the structure's energy label, extends the label
vector `y`, extends `noise_vector` by the inverse variance `1 / sigma_e²`
of the energy noise scale, and extends every kernel's `Kuf` block by the
corresponding column.  Entries inside the previous logical sizes are not
written. -/
def add_training_structure (s : SparseGP_DTC) (t : StructureDescriptor) :
    SparseGP_DTC :=
  let F := s.nLabels
  { s with
    nLabels := F + 1
    training_structures := fun f => if f < F then s.training_structures f else t
    y := fun f => if f < F then s.y f else t.energy
    noise_vector := fun f => if f < F then s.noise_vector f else 1 / s.sigma_e ^ 2
    Kuf_kernels := fun k u f =>
      if f < F then s.Kuf_kernels k u f
      else if u < s.nSparse ∧ f = F then
        (s.kernels k).env_struc_energy (s.sparse_environments u) t
      else s.Kuf_kernels k u f }

/-- Modelled from the spec: the three declared-but-unimplemented entry
points of `sparse_gp_dtc.h` ("Not implemented (yet):").  Spec §4.3/§7: they
must fail with a "not supported" condition rather than silently no-op. -/
def add_sparse_environment (s : SparseGP_DTC) (env : LocalEnvironment) :
    Except String SparseGP_DTC :=
  Except.error "not supported"

/-- Modelled from the spec: see `add_sparse_environment`. -/
def add_training_environment (s : SparseGP_DTC) (env : LocalEnvironment) :
    Except String SparseGP_DTC :=
  Except.error "not supported"

/-- Modelled from the spec: see `add_sparse_environment`. -/
def add_training_environments (s : SparseGP_DTC) (envs : List LocalEnvironment) :
    Except String SparseGP_DTC :=
  Except.error "not supported"

/-- The combined `Kuu` (spec §4.4: per-kernel blocks summed). -/
def Kuu_total (s : SparseGP_DTC) : ℕ → ℕ → ℚ :=
  fun i j => ∑ k ∈ Finset.range s.nKernels, s.Kuu_kernels k i j

/-- The combined `Kuf` (spec §4.4: per-kernel blocks summed). -/
def Kuf_total (s : SparseGP_DTC) : ℕ → ℕ → ℚ :=
  fun u f => ∑ k ∈ Finset.range s.nKernels, s.Kuf_kernels k u f

/-- The minor of a size-indexed matrix obtained by deleting row `r` and
column `c`. -/
def minorFun (A : ℕ → ℕ → ℚ) (r c : ℕ) : ℕ → ℕ → ℚ :=
  fun i j => A (if i < r then i else i + 1) (if j < c then j else j + 1)

/-- Determinant of the leading `n × n` block by cofactor expansion along the
first row. -/
def detFun : ℕ → (ℕ → ℕ → ℚ) → ℚ
  | 0, _ => 1
  | n + 1, A =>
      ∑ j ∈ Finset.range (n + 1), (-1 : ℚ) ^ j * A 0 j * detFun n (minorFun A 0 j)

/-- Modelled from the spec: the linear solve of `update_matrices`
(spec §4.5 "solving for `Kuu_inverse`"), realized as the exact cofactor
inverse of the leading `n × n` block (`0` outside a well-defined inverse,
e.g. singular input). -/
def matInv (n : ℕ) (A : ℕ → ℕ → ℚ) : ℕ → ℕ → ℚ :=
  fun i j => ((-1 : ℚ) ^ (i + j) * detFun (n - 1) (minorFun A j i)) / detFun n A

/-- Modelled from the spec: `SparseGP_DTC::update_matrices` (spec §4.5) —
from the assembled blocks it forms `Kuu_inverse`, the posterior covariance
`Sigma = (Kuu + Kuf · diag(noise_vector) · Kufᵀ)⁻¹` (zero jitter), and the
weight vector `alpha = Sigma · Kuf · diag(noise_vector) · y`.  It reads only
the assembly state and overwrites only the posterior state. -/
def update_matrices (s : SparseGP_DTC) : SparseGP_DTC :=
  let U := s.nSparse
  let F := s.nLabels
  let Kuu := Kuu_total s
  let Kuf := Kuf_total s
  let SigmaInner : ℕ → ℕ → ℚ := fun i j =>
    Kuu i j + ∑ f ∈ Finset.range F, Kuf i f * s.noise_vector f * Kuf j f
  let Sigma' := matInv U SigmaInner
  { s with
    Kuu_inverse := matInv U Kuu
    Sigma := Sigma'
    alpha := fun u =>
      ∑ v ∈ Finset.range U,
        Sigma' u v * ∑ f ∈ Finset.range F, Kuf v f * s.noise_vector f * s.y f }

/-- The cross-covariance vector between a test structure's energy label and
the inducing set, summed over kernels. -/
def kvec (s : SparseGP_DTC) (t : StructureDescriptor) : ℕ → ℚ :=
  fun u => ∑ k ∈ Finset.range s.nKernels,
    (s.kernels k).env_struc_energy (s.sparse_environments u) t

/-- Modelled from the spec: the DTC posterior mean of
`SparseGP_DTC::predict_DTC` for the energy label (spec §4.6) — the
cross-covariance vector contracted with the solved weight vector. -/
def predict_DTC_mean (s : SparseGP_DTC) (t : StructureDescriptor) : ℚ :=
  ∑ u ∈ Finset.range s.nSparse, kvec s t u * s.alpha u

/-- Prior self-covariance of a structure's energy label, summed over
kernels. -/
def self_kernel (s : SparseGP_DTC) (t : StructureDescriptor) : ℚ :=
  ∑ k ∈ Finset.range s.nKernels,
    (t.envs.map (fun e1 => (t.envs.map (fun e2 => (s.kernels k).env_env e1 e2)).sum)).sum

/-- Modelled from the spec: the DTC posterior variance of
`SparseGP_DTC::predict_DTC` for the energy label (spec §4.6) — prior
self-covariance minus the posterior-corrected term
`k*ᵀ (Kuu_inverse - Sigma) k*`, clipped to zero if negative. -/
def predict_DTC_variance (s : SparseGP_DTC) (t : StructureDescriptor) : ℚ :=
  let kv := kvec s t
  let q := ∑ u ∈ Finset.range s.nSparse, ∑ v ∈ Finset.range s.nSparse,
    kv u * (s.Kuu_inverse u v - s.Sigma u v) * kv v
  max 0 (self_kernel s t - q)

/-- Modelled from the spec: `SparseGP_DTC::set_hyperparameters` restricted
to the dot-product kernel at index `0` (spec §4.5 fast path; header comment
"with the dot product kernel, should never have to recompute kernels; just
rescale them").  The kernel's `Kuu`/`Kuf` blocks are rescaled analytically
by the ratio of the new to the old signal variance, without touching
descriptors. -/
def set_hyperparameters (s : SparseGP_DTC) (newHyps : ℕ → ℚ) : SparseGP_DTC :=
  let c := newHyps 0 / s.hyps 0
  { s with
    hyps := newHyps
    Kuu_kernels := fun k i j =>
      if k = 0 then c * s.Kuu_kernels k i j else s.Kuu_kernels k i j
    Kuf_kernels := fun k u f =>
      if k = 0 then c * s.Kuf_kernels k u f else s.Kuf_kernels k u f }

/-- The dot-product kernel of the concrete scenario of spec §8:
`power = 2`, `signal_variance = 1`. -/
def dot_kernel_C1 : Kernel := DotProductKernel 1 2

/-- The single sparse environment of the concrete scenario: descriptor
`[1, 0]` (unit norm). -/
def env_C1 : LocalEnvironment :=
  { desc := [1, 0], descNorm := 1, bonds := [], triplets := [] }

/-- The training structure of the concrete scenario: the same environment,
labeled with energy `2.0`. -/
def struc_C1 : StructureDescriptor := { envs := [env_C1], energy := 2 }

/-- Modelled from the spec: the `SparseGP_DTC` constructor — one kernel,
energy noise scale `sig_e`, empty sparse and training sets, zeroed
matrices. -/
def init_gp (k : Kernel) (sig_e : ℚ) : SparseGP_DTC :=
  { nKernels := 1, kernels := fun _ => k, hyps := fun _ => 1, sigma_e := sig_e,
    nSparse := 0, sparse_environments := fun _ => emptyEnv,
    nLabels := 0, training_structures := fun _ => emptyStruc,
    Kuu_kernels := fun _ _ _ => 0, Kuf_kernels := fun _ _ _ => 0,
    noise_vector := fun _ => 0, y := fun _ => 0,
    Sigma := fun _ _ => 0, Kuu_inverse := fun _ _ => 0, alpha := fun _ => 0 }

/-- The concrete-scenario model before `update_matrices`: noise scale
`0.1`, one sparse environment, one energy label. -/
def gp_C1_pre : SparseGP_DTC :=
  add_training_structure
    (add_sparse_environments (init_gp dot_kernel_C1 (1 / 10)) [env_C1]) struc_C1

/-- The concrete-scenario model after `update_matrices`. -/
def gp_C1 : SparseGP_DTC := update_matrices gp_C1_pre

/-- C1: in the concrete single-inducing-point scenario (descriptor `[1,0]`,
dot-product kernel with power 2 and signal variance 1, training structure =
the same environment labeled with energy `2.0` and noise `0.1`), the
assembled matrices are `Kuu = [[1]]`, `Kuf = [[1]]`,
`noise_vector = [100]`; `update_matrices()` yields `Kuu_inverse = [[1]]`,
and the DTC posterior mean prediction on that same environment equals
`2 · 100 / (1 + 100)` with zero jitter. -/
theorem concrete_scenario_DTC :
    gp_C1.Kuu_kernels 0 0 0 = 1 ∧
    gp_C1.Kuf_kernels 0 0 0 = 1 ∧
    gp_C1.noise_vector 0 = 100 ∧
    gp_C1.Kuu_inverse 0 0 = 1 ∧
    predict_DTC_mean gp_C1 struc_C1 = 2 * (100 / (1 + 100)) := by
  refine ⟨?_, ?_, ?_, ?_, ?_⟩ <;>
    norm_num [gp_C1, gp_C1_pre, update_matrices, add_training_structure,
      add_sparse_environments, init_gp, Kuu_total, Kuf_total, matInv, detFun,
      minorFun, dot_kernel_C1, DotProductKernel, dotEnvEnv, dotProd, env_C1,
      struc_C1, emptyEnv, emptyStruc, predict_DTC_mean, kvec, List.getD,
      Finset.sum_range_succ, Finset.sum_range_zero]

/-- C2: `add_sparse_environments` followed by `add_training_structure` on
the same environments leaves every previously assembled `Kuu`/`Kuf` entry
(outside the newly appended rows/columns) exactly unchanged, and each
operation on its own is append-only: `add_sparse_environments` preserves
all `Kuu`/`Kuf` entries inside the old logical sizes, and
`add_training_structure` never writes `Kuu` and preserves all `Kuf` columns
for previously collected labels. -/
theorem append_only_frame (s : SparseGP_DTC) (envs : List LocalEnvironment)
    (t : StructureDescriptor) :
    (∀ k i j, i < s.nSparse → j < s.nSparse →
      (add_training_structure (add_sparse_environments s envs) t).Kuu_kernels k i j
        = s.Kuu_kernels k i j) ∧
    (∀ k u f, u < s.nSparse → f < s.nLabels →
      (add_training_structure (add_sparse_environments s envs) t).Kuf_kernels k u f
        = s.Kuf_kernels k u f) ∧
    (∀ k i j, i < s.nSparse → j < s.nSparse →
      (add_sparse_environments s envs).Kuu_kernels k i j = s.Kuu_kernels k i j) ∧
    (∀ k u f, u < s.nSparse → f < s.nLabels →
      (add_sparse_environments s envs).Kuf_kernels k u f = s.Kuf_kernels k u f) ∧
    (∀ k i j, (add_training_structure s t).Kuu_kernels k i j = s.Kuu_kernels k i j) ∧
    (∀ k u f, f < s.nLabels →
      (add_training_structure s t).Kuf_kernels k u f = s.Kuf_kernels k u f) := by
  refine ⟨?_, ?_, ?_, ?_, ?_, ?_⟩
  · intro k i j hi hj
    simp [add_training_structure, add_sparse_environments, hi, hj]
  · intro k u f hu hf
    simp [add_training_structure, add_sparse_environments, hu, hf]
  · intro k i j hi hj
    simp [add_sparse_environments, hi, hj]
  · intro k u f hu hf
    simp [add_sparse_environments, hu, hf]
  · intro k i j
    rfl
  · intro k u f hf
    simp [add_training_structure, hf]

/-- Witness for C2 at the concrete scenario state (one sparse environment,
one label): the previously assembled entries `Kuu[0][0]` and `Kuf[0][0]`
are unchanged by a further `add_sparse_environments` plus
`add_training_structure` round. -/
theorem append_only_frame_witness :
    (add_training_structure (add_sparse_environments gp_C1_pre [env_C1]) struc_C1).Kuu_kernels 0 0 0
      = gp_C1_pre.Kuu_kernels 0 0 0 ∧
    (add_training_structure (add_sparse_environments gp_C1_pre [env_C1]) struc_C1).Kuf_kernels 0 0 0
      = gp_C1_pre.Kuf_kernels 0 0 0 :=
  ⟨(append_only_frame gp_C1_pre [env_C1] struc_C1).1 0 0 0
      (by simp [gp_C1_pre, add_training_structure, add_sparse_environments, init_gp])
      (by simp [gp_C1_pre, add_training_structure, add_sparse_environments, init_gp]),
   (append_only_frame gp_C1_pre [env_C1] struc_C1).2.1 0 0 0
      (by simp [gp_C1_pre, add_training_structure, add_sparse_environments, init_gp])
      (by simp [gp_C1_pre, add_training_structure, add_sparse_environments, init_gp])⟩

/-- C4: rescaling the dot-product kernel's signal variance by a factor
`c ≠ 0` through `set_hyperparameters` multiplies every entry of that
kernel's `Kuu` and `Kuf` blocks by exactly `c` (no descriptor is
re-evaluated: the operation reads only the stored blocks), and rescaling by
`c` and then back to the original hyperparameters restores the original
`Kuu` and `Kuf` blocks exactly. -/
theorem set_hyperparameters_rescale (s : SparseGP_DTC) (c : ℚ)
    (hs : s.hyps 0 ≠ 0) (hc : c ≠ 0) :
    (∀ i j,
      (set_hyperparameters s (fun k => if k = 0 then c * s.hyps 0 else s.hyps k)).Kuu_kernels 0 i j
        = c * s.Kuu_kernels 0 i j) ∧
    (∀ u f,
      (set_hyperparameters s (fun k => if k = 0 then c * s.hyps 0 else s.hyps k)).Kuf_kernels 0 u f
        = c * s.Kuf_kernels 0 u f) ∧
    (set_hyperparameters
        (set_hyperparameters s (fun k => if k = 0 then c * s.hyps 0 else s.hyps k))
        s.hyps).Kuu_kernels = s.Kuu_kernels ∧
    (set_hyperparameters
        (set_hyperparameters s (fun k => if k = 0 then c * s.hyps 0 else s.hyps k))
        s.hyps).Kuf_kernels = s.Kuf_kernels := by
  have hratio : c * s.hyps 0 / s.hyps 0 = c := mul_div_cancel_right₀ c hs
  refine ⟨?_, ?_, ?_, ?_⟩
  · intro i j
    simp [set_hyperparameters, hratio]
  · intro u f
    simp [set_hyperparameters, hratio]
  · funext k i j
    by_cases hk : k = 0
    · subst hk
      simp only [set_hyperparameters, if_pos rfl]
      field_simp
      ring
    · simp [set_hyperparameters, hk]
  · funext k u f
    by_cases hk : k = 0
    · subst hk
      simp only [set_hyperparameters, if_pos rfl]
      field_simp
      ring
    · simp [set_hyperparameters, hk]

/-- Witness for C4 at the concrete scenario state with `c = 3`: the
`Kuu[0][0]` and `Kuf[0][0]` entries of the dot-product kernel are
multiplied by exactly `3`, and the round trip restores both blocks. -/
theorem set_hyperparameters_rescale_witness :
    ((set_hyperparameters gp_C1_pre
        (fun k => if k = 0 then 3 * gp_C1_pre.hyps 0 else gp_C1_pre.hyps k)).Kuu_kernels 0 0 0
      = 3 * gp_C1_pre.Kuu_kernels 0 0 0) ∧
    ((set_hyperparameters gp_C1_pre
        (fun k => if k = 0 then 3 * gp_C1_pre.hyps 0 else gp_C1_pre.hyps k)).Kuf_kernels 0 0 0
      = 3 * gp_C1_pre.Kuf_kernels 0 0 0) ∧
    (set_hyperparameters
        (set_hyperparameters gp_C1_pre
          (fun k => if k = 0 then 3 * gp_C1_pre.hyps 0 else gp_C1_pre.hyps k))
        gp_C1_pre.hyps).Kuu_kernels = gp_C1_pre.Kuu_kernels ∧
    (set_hyperparameters
        (set_hyperparameters gp_C1_pre
          (fun k => if k = 0 then 3 * gp_C1_pre.hyps 0 else gp_C1_pre.hyps k))
        gp_C1_pre.hyps).Kuf_kernels = gp_C1_pre.Kuf_kernels := by
  have h := set_hyperparameters_rescale gp_C1_pre 3
    (by simp [gp_C1_pre, add_training_structure, add_sparse_environments, init_gp])
    (by simp)
  exact ⟨h.1 0 0, h.2.1 0 0, h.2.2.1, h.2.2.2⟩

/-- C5: with no intervening mutation, `update_matrices` is idempotent: the
second run produces `Sigma` and `Kuu_inverse` identical to the first run's
(the operation reads only the assembly state, which it does not modify). -/
theorem update_matrices_idempotent (s : SparseGP_DTC) :
    (update_matrices (update_matrices s)).Sigma = (update_matrices s).Sigma ∧
    (update_matrices (update_matrices s)).Kuu_inverse
      = (update_matrices s).Kuu_inverse :=
  ⟨rfl, rfl⟩

/-- C7: each declared-but-unimplemented operation (`add_sparse_environment`
on a single environment, `add_training_environment`,
`add_training_environments`) fails with the "not supported" condition and
never returns successfully (no silent no-op). -/
theorem unimplemented_ops_fail (s : SparseGP_DTC) (env : LocalEnvironment)
    (envs : List LocalEnvironment) :
    add_sparse_environment s env = Except.error "not supported" ∧
    add_training_environment s env = Except.error "not supported" ∧
    add_training_environments s envs = Except.error "not supported" ∧
    (∀ s' : SparseGP_DTC, add_sparse_environment s env ≠ Except.ok s') ∧
    (∀ s' : SparseGP_DTC, add_training_environment s env ≠ Except.ok s') ∧
    (∀ s' : SparseGP_DTC, add_training_environments s envs ≠ Except.ok s') :=
  ⟨rfl, rfl, rfl,
   fun s' h => Except.noConfusion h,
   fun s' h => Except.noConfusion h,
   fun s' h => Except.noConfusion h⟩

/-- `B2_vals.dot(beta_matrices[itype-1] * B2_vals)` of
`ComputeFlareStdAtom::compute_peratom` — the quadratic form of the beta
matrix on the invariant descriptor vector (`nd` descriptors). -/
def quadFormB (betaM : ℕ → ℕ → ℚ) (nd : ℕ) (v : ℕ → ℚ) : ℚ :=
  ∑ i ∈ Finset.range nd, ∑ j ∈ Finset.range nd, v i * betaM i j * v j

/-- `B2_norm_squared` produced by `B2_descriptor`: the squared norm of the
invariant descriptor vector. -/
def B2_norm_sq (nd : ℕ) (v : ℕ → ℚ) : ℚ :=
  ∑ i ∈ Finset.range nd, v i ^ 2

/-- The square of the per-atom uncertainty assigned by
`ComputeFlareStdAtom::compute_peratom`:
`stds[i] = pow(abs(B2_vals.dot(beta_p)) / B2_norm_squared, 0.5)`, so the
reported value is the real square root of this rational quantity (the
source comment notes "the numerator could be negative"; the absolute value
is applied to the numerator before the square root). -/
def stds_sq (betaM : ℕ → ℕ → ℚ) (nd : ℕ) (v : ℕ → ℚ) : ℚ :=
  |quadFormB betaM nd v| / B2_norm_sq nd v

/-- C6 counterexample: with one descriptor, `B2_vals = [1]` and beta matrix
`[[-1]]`, the posterior-corrected quadratic form is negative (`-1`), yet
`compute_peratom` reports `sqrt(|-1| / 1) = 1`, not `0` — a negative
posterior-corrected value is reported via its absolute value, not clipped
to zero as the claim states. -/
theorem negative_variance_reported_not_clipped :
    quadFormB (fun _ _ => (-1 : ℚ)) 1 (fun _ => 1) < 0 ∧
    stds_sq (fun _ _ => (-1 : ℚ)) 1 (fun _ => 1) = 1 ∧
    Real.sqrt ((stds_sq (fun _ _ => (-1 : ℚ)) 1 (fun _ => 1) : ℚ) : ℝ) = 1 := by
  have h2 : stds_sq (fun _ _ => (-1 : ℚ)) 1 (fun _ => 1) = 1 := by
    norm_num [stds_sq, quadFormB, B2_norm_sq, Finset.sum_range_succ,
      Finset.sum_range_zero]
  refine ⟨?_, h2, ?_⟩
  · norm_num [quadFormB, Finset.sum_range_succ, Finset.sum_range_zero]
  · rw [h2]
    norm_num

/-- C6 (amended): the reported per-atom uncertainty of
`ComputeFlareStdAtom::compute_peratom` is never negative — but by absolute
value (`sqrt(|quadform| / norm²)`), not by clipping to zero — and the
spec-modelled `predict_DTC` posterior variance is never negative (clipped
to zero). -/
theorem predicted_variance_nonneg :
    (∀ (betaM : ℕ → ℕ → ℚ) (nd : ℕ) (v : ℕ → ℚ),
      0 ≤ stds_sq betaM nd v ∧ 0 ≤ Real.sqrt ((stds_sq betaM nd v : ℚ) : ℝ)) ∧
    (∀ (s : SparseGP_DTC) (t : StructureDescriptor),
      0 ≤ predict_DTC_variance s t) := by
  constructor
  · intro betaM nd v
    constructor
    · exact div_nonneg (abs_nonneg _) (Finset.sum_nonneg fun i _ => sq_nonneg _)
    · exact Real.sqrt_nonneg _
  · intro s t
    exact le_max_left 0 _

/-- The header block of a model coefficient file: radial basis name,
`(n_species, n_max, l_max, beta_size)`, cutoff function name, cutoff
radius. -/
structure CoeffHeader where
  radial_string : String
  n_species : ℕ
  n_max : ℕ
  l_max : ℕ
  beta_size : ℕ
  cutoff_string : String
  cutoff : ℚ

/-- The radial basis a coefficient file can name (`read_file` recognizes
only "chebyshev"). -/
inductive RadialBasis
  | chebyshev
deriving DecidableEq

/-- The cutoff functions a coefficient file can name (`read_file`
recognizes only "quadratic" and "cosine"). -/
inductive CutoffFunction
  | quadratic_cutoff
  | cos_cutoff
deriving DecidableEq

/-- The model state set up by `read_file`: the basis and cutoff function
fields are `none` when the file's name matched no known strategy (the C++
leaves the corresponding `std::function` unset in that case). -/
structure FlareModel where
  n_species : ℕ
  n_max : ℕ
  l_max : ℕ
  beta_size : ℕ
  n_descriptors : ℕ
  basis_function : Option RadialBasis
  cutoff_function : Option CutoffFunction
  cutoff : ℚ

/-- `n_descriptors` as computed by both `read_file` variants:
`n_radial = n_max * n_species`,
`n_descriptors = (n_radial * (n_radial + 1) / 2) * (l_max + 1)`. -/
def n_descriptors_of (n_species n_max l_max : ℕ) : ℕ :=
  let n_radial := n_max * n_species
  n_radial * (n_radial + 1) / 2 * (l_max + 1)

/-- `ComputeFlareStdAtom::read_file`: checks
`beta_check = n_descriptors * n_descriptors` against the declared
`beta_size` (mismatch is fatal: `error->all`, modelled as `Except.error`
with the message rendered without the apostrophe of the C++ literal), then
sets the radial basis if the name is "chebyshev" and the cutoff function if
the name is "quadratic" or "cosine" — an unknown name sets nothing and is
not an error. -/
def ComputeFlareStdAtom_read_file (h : CoeffHeader) : Except String FlareModel :=
  let nd := n_descriptors_of h.n_species h.n_max h.l_max
  let beta_check := nd * nd
  if beta_check ≠ h.beta_size then
    Except.error "Beta size does not match the number of descriptors."
  else
    Except.ok
      { n_species := h.n_species, n_max := h.n_max, l_max := h.l_max,
        beta_size := h.beta_size, n_descriptors := nd,
        basis_function :=
          if h.radial_string = "chebyshev" then some RadialBasis.chebyshev
          else none,
        cutoff_function :=
          if h.cutoff_string = "quadratic" then some CutoffFunction.quadratic_cutoff
          else if h.cutoff_string = "cosine" then some CutoffFunction.cos_cutoff
          else none,
        cutoff := h.cutoff }

/-- `PairFLARE::read_file`: identical to the compute variant except that the
beta check is against the upper-triangular count
`n_descriptors * (n_descriptors + 1) / 2`. -/
def PairFLARE_read_file (h : CoeffHeader) : Except String FlareModel :=
  let nd := n_descriptors_of h.n_species h.n_max h.l_max
  let beta_check := nd * (nd + 1) / 2
  if beta_check ≠ h.beta_size then
    Except.error "Beta size does not match the number of descriptors."
  else
    Except.ok
      { n_species := h.n_species, n_max := h.n_max, l_max := h.l_max,
        beta_size := h.beta_size, n_descriptors := nd,
        basis_function :=
          if h.radial_string = "chebyshev" then some RadialBasis.chebyshev
          else none,
        cutoff_function :=
          if h.cutoff_string = "quadratic" then some CutoffFunction.quadratic_cutoff
          else if h.cutoff_string = "cosine" then some CutoffFunction.cos_cutoff
          else none,
        cutoff := h.cutoff }

/-- A coefficient-file header whose basis-set and cutoff-function names are
unknown but whose `beta_size` matches both variants' checks
(`n_descriptors = 1`). -/
def unknown_names_header : CoeffHeader :=
  { radial_string := "fourier", n_species := 1, n_max := 1, l_max := 0,
    beta_size := 1, cutoff_string := "hard", cutoff := 0 }

/-- C8 counterexample: both `read_file` variants succeed on a file whose
basis-set name ("fourier") and cutoff-function name ("hard") are unknown —
construction is not aborted; the unmatched strategies are silently left
unset (`none`).  This refutes the claim that an unknown basis or cutoff
name is a fatal configuration error. -/
theorem unknown_name_not_fatal :
    (∃ m, ComputeFlareStdAtom_read_file unknown_names_header = Except.ok m) ∧
    (∃ m, PairFLARE_read_file unknown_names_header = Except.ok m) ∧
    unknown_names_header.radial_string ≠ "chebyshev" ∧
    unknown_names_header.cutoff_string ≠ "quadratic" ∧
    unknown_names_header.cutoff_string ≠ "cosine" ∧
    (ComputeFlareStdAtom_read_file unknown_names_header).toOption.map
        (fun m => (m.basis_function, m.cutoff_function))
      = some (none, none) ∧
    (PairFLARE_read_file unknown_names_header).toOption.map
        (fun m => (m.basis_function, m.cutoff_function))
      = some (none, none) := by
  refine ⟨⟨_, rfl⟩, ⟨_, rfl⟩, ?_, ?_, ?_, rfl, rfl⟩ <;> decide

/-- C8 (amended): loading a model coefficient file aborts construction when
and only when the declared `beta_size` differs from the required
coefficient count — the full pair count `n_descriptors²` for the
std-atom compute variant and the upper-triangular count
`n_descriptors (n_descriptors + 1) / 2` for the pair variant; an unknown
basis-set or cutoff-function name never aborts: the corresponding strategy
is silently left unset, and construction succeeds whenever the beta-size
check passes. -/
theorem read_file_aborts_iff_beta_mismatch (h : CoeffHeader) :
    ((∃ m, ComputeFlareStdAtom_read_file h = Except.ok m) ↔
      h.beta_size = n_descriptors_of h.n_species h.n_max h.l_max *
        n_descriptors_of h.n_species h.n_max h.l_max) ∧
    ((∃ m, PairFLARE_read_file h = Except.ok m) ↔
      h.beta_size = n_descriptors_of h.n_species h.n_max h.l_max *
        (n_descriptors_of h.n_species h.n_max h.l_max + 1) / 2) ∧
    (∀ m, ComputeFlareStdAtom_read_file h = Except.ok m →
      m.basis_function =
        (if h.radial_string = "chebyshev" then some RadialBasis.chebyshev
         else none) ∧
      m.cutoff_function =
        (if h.cutoff_string = "quadratic" then some CutoffFunction.quadratic_cutoff
         else if h.cutoff_string = "cosine" then some CutoffFunction.cos_cutoff
         else none)) := by
  refine ⟨?_, ?_, ?_⟩
  · by_cases hb : n_descriptors_of h.n_species h.n_max h.l_max *
        n_descriptors_of h.n_species h.n_max h.l_max = h.beta_size
    · exact ⟨fun _ => hb.symm,
        fun _ => by simp [ComputeFlareStdAtom_read_file, hb]⟩
    · constructor
      · rintro ⟨m, hm⟩
        simp [ComputeFlareStdAtom_read_file, hb] at hm
      · intro hbe
        exact absurd hbe.symm hb
  · by_cases hb : n_descriptors_of h.n_species h.n_max h.l_max *
        (n_descriptors_of h.n_species h.n_max h.l_max + 1) / 2 = h.beta_size
    · exact ⟨fun _ => hb.symm,
        fun _ => by simp [PairFLARE_read_file, hb]⟩
    · constructor
      · rintro ⟨m, hm⟩
        simp [PairFLARE_read_file, hb] at hm
      · intro hbe
        exact absurd hbe.symm hb
  · intro m hm
    by_cases hb : n_descriptors_of h.n_species h.n_max h.l_max *
        n_descriptors_of h.n_species h.n_max h.l_max = h.beta_size
    · simp [ComputeFlareStdAtom_read_file, hb] at hm
      cases hm
      exact ⟨rfl, rfl⟩
    · simp [ComputeFlareStdAtom_read_file, hb] at hm

/-- Point update of a ℕ-indexed array (a single `arr[k] = v` store). -/
def updAtF {α : Type} (f : ℕ → α) (k : ℕ) (v : α) : ℕ → α :=
  fun m => if m = k then v else f m

/-- Componentwise sum of 3-vectors. -/
def vadd3 (a b : ℚ × ℚ × ℚ) : ℚ × ℚ × ℚ :=
  (a.1 + b.1, a.2.1 + b.2.1, a.2.2 + b.2.2)

/-- Componentwise difference of 3-vectors. -/
def vsub3 (a b : ℚ × ℚ × ℚ) : ℚ × ℚ × ℚ :=
  (a.1 - b.1, a.2.1 - b.2.1, a.2.2 - b.2.2)

/-- Componentwise negation of a 3-vector. -/
def vneg3 (a : ℚ × ℚ × ℚ) : ℚ × ℚ × ℚ :=
  (-a.1, -a.2.1, -a.2.2)

/-- The "Store partial forces" step of `PairFLARE::compute` for one
neighbor `jj`: `f[i][l] -= fij[l]` for the three components, then
`f[j][l] += fij[l]` (sequential stores, as in the source). -/
def pair_force_store (f : ℕ → ℚ × ℚ × ℚ) (i j : ℕ) (fij : ℚ × ℚ × ℚ) :
    ℕ → ℚ × ℚ × ℚ :=
  let f1 := updAtF f i (vsub3 (f i) fij)
  updAtF f1 j (vadd3 (f1 j) fij)

/-- C9: for distinct atoms `i ≠ j`, the partial-force accumulation of
`PairFLARE::compute` adds onto atom `j` exactly the negative of what it
subtracts from atom `i` (Newton's third law): the update at `j` is `+fij`,
the update at `i` is `-fij`, their sum over the pair cancels (the pairwise
total is preserved), and no other atom's force is touched. -/
theorem newton_third_law_pair (f : ℕ → ℚ × ℚ × ℚ) (i j : ℕ)
    (fij : ℚ × ℚ × ℚ) (hij : i ≠ j) :
    pair_force_store f i j fij i = vsub3 (f i) fij ∧
    pair_force_store f i j fij j = vadd3 (f j) fij ∧
    vsub3 (pair_force_store f i j fij j) (f j)
      = vneg3 (vsub3 (pair_force_store f i j fij i) (f i)) ∧
    vadd3 (pair_force_store f i j fij i) (pair_force_store f i j fij j)
      = vadd3 (f i) (f j) ∧
    (∀ m, m ≠ i → m ≠ j → pair_force_store f i j fij m = f m) := by
  have hji : j ≠ i := Ne.symm hij
  have h1 : pair_force_store f i j fij i = vsub3 (f i) fij := by
    simp [pair_force_store, updAtF, hij]
  have h2 : pair_force_store f i j fij j = vadd3 (f j) fij := by
    simp [pair_force_store, updAtF, hji]
  refine ⟨h1, h2, ?_, ?_, ?_⟩
  · rw [h1, h2]
    simp only [vadd3, vsub3, vneg3, Prod.mk.injEq]
    refine ⟨by ring, by ring, by ring⟩
  · rw [h1, h2]
    simp only [vadd3, vsub3, Prod.mk.injEq]
    refine ⟨by ring, by ring, by ring⟩
  · intro m hmi hmj
    simp [pair_force_store, updAtF, hmi, hmj]

/-- Witness for C9 at a concrete pair: zero initial forces, atoms `0` and
`1`, partial force `(1, 2, 3)`; atom `2` is untouched. -/
theorem newton_third_law_pair_witness :
    pair_force_store (fun _ => ((0 : ℚ), (0 : ℚ), (0 : ℚ))) 0 1 (1, 2, 3) 0
      = vsub3 (0, 0, 0) (1, 2, 3) ∧
    pair_force_store (fun _ => ((0 : ℚ), (0 : ℚ), (0 : ℚ))) 0 1 (1, 2, 3) 1
      = vadd3 (0, 0, 0) (1, 2, 3) ∧
    vadd3 (pair_force_store (fun _ => ((0 : ℚ), (0 : ℚ), (0 : ℚ))) 0 1 (1, 2, 3) 0)
        (pair_force_store (fun _ => ((0 : ℚ), (0 : ℚ), (0 : ℚ))) 0 1 (1, 2, 3) 1)
      = vadd3 (0, 0, 0) (0, 0, 0) ∧
    pair_force_store (fun _ => ((0 : ℚ), (0 : ℚ), (0 : ℚ))) 0 1 (1, 2, 3) 2
      = (0, 0, 0) := by
  have h := newton_third_law_pair (fun _ => ((0 : ℚ), (0 : ℚ), (0 : ℚ))) 0 1
    (1, 2, 3) (by decide)
  exact ⟨h.1, h.2.1, h.2.2.2.1, h.2.2.2.2 2 (by decide) (by decide)⟩

/-- `comm_reverse` as set in the `ComputeFlareStdAtom` constructor: the
compute declares one value per atom for reverse communication. -/
def comm_reverse : ℕ := 1

/-- `ComputeFlareStdAtom::pack_reverse_comm`: for each of the `n` atoms
`i = first, …, first + n - 1`, in order, writes `stds[i]` three times into
the buffer (`for comp in 0..2: buf[m++] = stds[i]`); the returned count is
the final buffer length. -/
def pack_reverse_comm : ℕ → ℕ → (ℕ → ℚ) → List ℚ
  | 0, _, _ => []
  | n + 1, first, stds =>
      pack_reverse_comm n first stds ++
        [stds (first + n), stds (first + n), stds (first + n)]

/-- `ComputeFlareStdAtom::unpack_reverse_comm`: for `i = 0, …, n - 1`, in
order, adds the three buffered values `buf[3i]`, `buf[3i+1]`, `buf[3i+2]`
onto `stds[list[i]]`. -/
def unpack_reverse_comm : ℕ → (ℕ → ℕ) → List ℚ → (ℕ → ℚ) → ℕ → ℚ
  | 0, _, _, stds => stds
  | n + 1, lst, buf, stds =>
      let s := unpack_reverse_comm n lst buf stds
      updAtF s (lst n)
        (s (lst n) + buf.getD (3 * n) 0 + buf.getD (3 * n + 1) 0 +
          buf.getD (3 * n + 2) 0)

theorem pack_reverse_comm_length (n first : ℕ) (stds : ℕ → ℚ) :
    (pack_reverse_comm n first stds).length = 3 * n := by
  induction n with
  | zero => rfl
  | succ n ih =>
      simp only [pack_reverse_comm, List.length_append, ih, List.length_cons,
        List.length_nil]
      omega

theorem pack_reverse_comm_getD (n first : ℕ) (stds : ℕ → ℚ) :
    ∀ i, i < n → ∀ c, c < 3 →
      (pack_reverse_comm n first stds).getD (3 * i + c) 0 = stds (first + i) := by
  induction n with
  | zero => intro i hi; exact absurd hi (Nat.not_lt_zero i)
  | succ n ih =>
      intro i hi c hc
      rcases Nat.lt_succ_iff_lt_or_eq.mp hi with h | h
      · rw [pack_reverse_comm, List.getD_append]
        · exact ih i h c hc
        · rw [pack_reverse_comm_length n first stds]
          omega
      · subst h
        rw [pack_reverse_comm, List.getD_append_right]
        · rw [pack_reverse_comm_length i first stds]
          have hidx : 3 * i + c - 3 * i = c := by omega
          rw [hidx]
          interval_cases c <;> simp
        · rw [pack_reverse_comm_length i first stds]
          omega

theorem unpack_reverse_comm_unchanged (lst : ℕ → ℕ) (buf : List ℚ)
    (stds : ℕ → ℚ) :
    ∀ n x, (∀ i, i < n → lst i ≠ x) →
      unpack_reverse_comm n lst buf stds x = stds x := by
  intro n
  induction n with
  | zero => intro x _; rfl
  | succ n ih =>
      intro x hx
      simp only [unpack_reverse_comm, updAtF]
      rw [if_neg (fun h => hx n (Nat.lt_succ_self n) h.symm)]
      exact ih x (fun i hi => hx i (hi.trans (Nat.lt_succ_self n)))

theorem unpack_reverse_comm_adds (lst : ℕ → ℕ) (buf : List ℚ)
    (stds : ℕ → ℚ) :
    ∀ n, (∀ i1, i1 < n → ∀ i2, i2 < n → lst i1 = lst i2 → i1 = i2) →
      ∀ i, i < n →
        unpack_reverse_comm n lst buf stds (lst i)
          = stds (lst i) + buf.getD (3 * i) 0 + buf.getD (3 * i + 1) 0 +
              buf.getD (3 * i + 2) 0 := by
  intro n
  induction n with
  | zero => intro _ i hi; exact absurd hi (Nat.not_lt_zero i)
  | succ n ih =>
      intro hinj i hi
      rcases Nat.lt_succ_iff_lt_or_eq.mp hi with h | h
      · have hne : lst i ≠ lst n := fun he => by
          have := hinj i (Nat.lt_succ_of_lt h) n (Nat.lt_succ_self n) he
          omega
        simp only [unpack_reverse_comm, updAtF]
        rw [if_neg hne]
        exact ih
          (fun i1 h1 i2 h2 he =>
            hinj i1 (Nat.lt_succ_of_lt h1) i2 (Nat.lt_succ_of_lt h2) he) i h
      · subst h
        simp only [unpack_reverse_comm, updAtF, if_pos rfl]
        rw [unpack_reverse_comm_unchanged lst buf stds i (lst i)
          (fun i2 hi2 he => by
            have := hinj i2 (Nat.lt_succ_of_lt hi2) i (Nat.lt_succ_self i) he
            omega)]
        simp

/-- C10: `pack_reverse_comm` writes exactly three copies of `stds[i]` per
atom and returns `3 * n`; `unpack_reverse_comm` adds all three buffered
copies back onto `stds[list[i]]`, so (for distinct destinations) one
pack/unpack round trip increases each destination value by three times the
source value — even though the compute declares `comm_reverse = 1` (one
value per atom). -/
theorem reverse_comm_triple_count (n first : ℕ) (lst : ℕ → ℕ) (stds : ℕ → ℚ)
    (hinj : ∀ i1, i1 < n → ∀ i2, i2 < n → lst i1 = lst i2 → i1 = i2) :
    comm_reverse = 1 ∧
    (pack_reverse_comm n first stds).length = 3 * n ∧
    (∀ i, i < n →
      (pack_reverse_comm n first stds).getD (3 * i) 0 = stds (first + i) ∧
      (pack_reverse_comm n first stds).getD (3 * i + 1) 0 = stds (first + i) ∧
      (pack_reverse_comm n first stds).getD (3 * i + 2) 0 = stds (first + i)) ∧
    (∀ i, i < n →
      unpack_reverse_comm n lst (pack_reverse_comm n first stds) stds (lst i)
        = stds (lst i) + 3 * stds (first + i)) := by
  refine ⟨rfl, pack_reverse_comm_length n first stds, ?_, ?_⟩
  · intro i hi
    refine ⟨?_, ?_, ?_⟩
    · have := pack_reverse_comm_getD n first stds i hi 0 (by omega)
      simpa using this
    · exact pack_reverse_comm_getD n first stds i hi 1 (by omega)
    · exact pack_reverse_comm_getD n first stds i hi 2 (by omega)
  · intro i hi
    rw [unpack_reverse_comm_adds lst (pack_reverse_comm n first stds) stds n
        hinj i hi,
      pack_reverse_comm_getD n first stds i hi 1 (by omega),
      pack_reverse_comm_getD n first stds i hi 2 (by omega)]
    have h0 := pack_reverse_comm_getD n first stds i hi 0 (by omega)
    rw [show 3 * i + 0 = 3 * i by omega] at h0
    rw [h0]
    ring

/-- Witness for C10 with one atom (`n = 1`, `first = 0`), destination index
`5`, and constant `stds = 7`: the buffer holds three copies of `7`, the
returned count is `3`, and the round trip yields `7 + 3 · 7`. -/
theorem reverse_comm_triple_count_witness :
    comm_reverse = 1 ∧
    (pack_reverse_comm 1 0 (fun _ => (7 : ℚ))).length = 3 * 1 ∧
    (pack_reverse_comm 1 0 (fun _ => (7 : ℚ))).getD 0 0 = 7 ∧
    unpack_reverse_comm 1 (fun _ => 5) (pack_reverse_comm 1 0 (fun _ => (7 : ℚ)))
        (fun _ => (7 : ℚ)) 5 = 7 + 3 * 7 := by
  have h := reverse_comm_triple_count 1 0 (fun _ => 5) (fun _ => (7 : ℚ))
    (fun i1 h1 i2 h2 _ => by omega)
  refine ⟨h.1, h.2.1, ?_, ?_⟩
  · have := (h.2.2.1 0 (by omega)).1
    simpa using this
  · have := h.2.2.2 0 (by omega)
    simpa using this

end Flare
